import Mathlib

/-!
Shallow embedding of the DigitalCardDeckApp War card game
(`src/game/War.py`, `src/game/lib/game.py`, `src/game/lib/deck.py`).

Python strings are modelled as Lean `String` (Python compares strings
lexicographically by code point, exactly as Lean's `String` order does for
the ASCII rank symbols used here).  Python exceptions are modelled by the
`PyError` type and `Except`.
-/

namespace WarGame

/-- Python exceptions raised by the embedded code: `KeyError` from a missing
dict field, `ValueError` from `list.remove` on an absent element,
`GameFailure` from `Game.get_player`, `IndexError` from `list.pop(0)` on an
empty list. -/
inductive PyError where
  | keyError : PyError
  | valueNotFound : PyError
  | gameFailure : PyError
  | indexError : PyError
deriving DecidableEq, Repr

/-- `Card` from `src/game/lib/deck.py`: `value`, `suit`, optional `color`
(default `None`). -/
structure Card where
  value : String
  suit : String
  color : Option String
deriving DecidableEq, Repr

/-- `Hand` from `src/game/lib/game.py`.  `active` is the playable queue,
`dead` the won/discarded pile, `rfids` the bound physical identifiers and
`turn` the turn flag, initialised to Python `None` (hence `Option Bool`). -/
structure Hand where
  active : List Card
  dead : List Card
  rfids : List Nat
  turn : Option Bool
deriving DecidableEq, Repr

/-- `Hand.__init__(cards)`: `active` starts as the given cards, `dead` and
`rfids` empty, `turn = None`. -/
def Hand.init (cards : List Card) : Hand := ⟨cards, [], [], none⟩

/-- `Hand.place(card)` from `src/game/lib/game.py:37`: `self.active.remove(card)`
removes the first occurrence of `card` and the card is returned; if the card
is absent, `list.remove` raises `ValueError` before any mutation, so the hand
is returned unchanged together with the error. -/
def Hand.place (h : Hand) (c : Card) : Except PyError Card × Hand :=
  if c ∈ h.active then (.ok c, ⟨h.active.erase c, h.dead, h.rfids, h.turn⟩)
  else (.error .valueNotFound, h)

/-- Python's `<` on strings: lexicographic comparison of the code-point
sequences.  A proper prefix is smaller; otherwise the first differing
character decides. -/
def pyLtChars : List Char → List Char → Bool
  | [], [] => false
  | [], _ :: _ => true
  | _ :: _, [] => false
  | a :: as, b :: bs => if a < b then true else if b < a then false else pyLtChars as bs

/-- Python string comparison `a < b` lifted to Lean strings. -/
def pyLt (a b : String) : Bool := pyLtChars a.data b.data

/-- The `translate_A_K` remapping inside `War.check_winner`
(`src/game/War.py:61`): the value string `A` is replaced by `Z` and `K` by
`X` before comparison; every other value string is left as is. -/
def translateAK (v : String) : String :=
  if v = "A" then "Z" else if v = "K" then "X" else v

/-- `War.check_winner` (`src/game/War.py:51`) reduced to the two played value
strings: `v1` is the value of player 0's card (`current_round[0][0].value`),
`v2` that of player 1's card (`current_round[1][1].value`).  After the A/K
translation the *strings* are compared with Python `>` (lexicographic by
code point); the first player's key `0` is returned if `v1 > v2`, the second
player's key `1` if `v2 > v1`, and `-1` on equality (tie / war). -/
def checkWinner (v1 v2 : String) : Int :=
  let c1 := translateAK v1
  let c2 := translateAK v2
  if pyLt c2 c1 then 0
  else if pyLt c1 c2 then 1
  else -1

/-- The mutable state of a two-player War game: the two hands
(`self.hands[0]` and `self.hands[1]` in `src/game/War.py`). -/
structure WarState where
  h0 : Hand
  h1 : Hand
deriving DecidableEq, Repr

/-- Python `not` applied to a turn flag that may be `None`:
`not None = True`, `not True = False`, `not False = True`. -/
def pythonNot : Option Bool → Option Bool
  | none => some true
  | some b => some (!b)

/-- `War.switch_turns` (`src/game/War.py:46`): each hand's `turn` is replaced
by its Python negation. -/
def switchTurns (s : WarState) : WarState :=
  ⟨⟨s.h0.active, s.h0.dead, s.h0.rfids, pythonNot s.h0.turn⟩,
   ⟨s.h1.active, s.h1.dead, s.h1.rfids, pythonNot s.h1.turn⟩⟩

/-- `War.distribute` (`src/game/War.py:85`): on a clear winner (`winner ≠ -1`)
both played cards are appended to the winner's `dead` pile; then, win or tie,
player 0's played card `c0` is appended (to the back) of hand 0's `active`
list and player 1's card `c1` to hand 1's `active` list. -/
def distribute (winner : Int) (c0 c1 : Card) (s : WarState) : WarState :=
  let s' : WarState :=
    if winner = 0 then
      ⟨⟨s.h0.active, s.h0.dead ++ [c0, c1], s.h0.rfids, s.h0.turn⟩, s.h1⟩
    else if winner = 1 then
      ⟨s.h0, ⟨s.h1.active, s.h1.dead ++ [c0, c1], s.h1.rfids, s.h1.turn⟩⟩
    else s
  ⟨⟨s'.h0.active ++ [c0], s'.h0.dead, s'.h0.rfids, s'.h0.turn⟩,
   ⟨s'.h1.active ++ [c1], s'.h1.dead, s'.h1.rfids, s'.h1.turn⟩⟩

/-- One full iteration of the play loop in `War.start`
(`src/game/War.py:165`), on the happy path where the hardware reader returns
the identifier of the player whose turn it is.  Player 0 plays first (its
turn flag is set at the deal and the two `switch_turns` calls per round keep
it that way): `get_player_info` pops the front card of hand 0's `active`
list and switches turns, the same happens for hand 1, then `check_winner`
and `distribute` run.  `active.pop(0)` on an empty list raises `IndexError`. -/
def warRound (s : WarState) : Except PyError WarState :=
  match s.h0.active, s.h1.active with
  | c0 :: rest0, c1 :: rest1 =>
    let s1 := switchTurns ⟨⟨rest0, s.h0.dead, s.h0.rfids, s.h0.turn⟩, s.h1⟩
    let s2 := switchTurns ⟨s1.h0, ⟨rest1, s1.h1.dead, s1.h1.rfids, s1.h1.turn⟩⟩
    .ok (distribute (checkWinner c0.value c1.value) c0 c1 s2)
  | _, _ => .error .indexError

/-- `n` consecutive iterations of the play loop (error-propagating). -/
def warSteps : Nat → WarState → Except PyError WarState
  | 0, s => .ok s
  | n + 1, s => match warRound s with
    | .ok s' => warSteps n s'
    | .error e => .error e

/-- The guard of the `while` loop in `War.start` (`src/game/War.py:165`):
keep playing while both `dead` piles hold fewer than 52 cards. -/
def loopGuard (s : WarState) : Bool :=
  decide (s.h0.dead.length < 52) && decide (s.h1.dead.length < 52)

/-- The winner announcement after the loop (`src/game/War.py:184`): the first
player whose `dead` pile holds at least 52 cards. -/
def announceWinner (s : WarState) : Option Nat :=
  if 52 ≤ s.h0.dead.length then some 0
  else if 52 ≤ s.h1.dead.length then some 1
  else none

/-- Normal termination of `War.start`'s play loop: after some number of
rounds, none of which raises, the loop guard becomes false. -/
def WarTerminates (s : WarState) : Prop :=
  ∃ n s', warSteps n s = .ok s' ∧ loopGuard s' = false

/-- `War.create_hands` (`src/game/War.py:102`) after the deck has been
shuffled into the card list `cards`: the first `len(cards) // 2` cards go to
player 0, the rest to player 1; each hand registers its physical RFID
identifiers (hardware input, passed here as `r0`, `r1`); finally
`hands[0].turn` is set to `True` while `hands[1].turn` keeps its initial
`None`. -/
def createHands (cards : List Card) (r0 r1 : List Nat) : WarState :=
  let half := cards.length / 2
  ⟨⟨cards.take half, [], r0, some true⟩,
   ⟨cards.drop half, [], r1, none⟩⟩

/-- `Game.get_player` (`src/game/lib/game.py:126`) iterating over the player
indices in increasing order starting from `i`: the first hand whose `rfids`
list contains `hw` gives the result; if none does, `GameFailure` is raised. -/
def getPlayerAux (hw : Nat) : Nat → List Hand → Except PyError Nat
  | _, [] => .error .gameFailure
  | i, h :: rest => if hw ∈ h.rfids then .ok i else getPlayerAux hw (i + 1) rest

/-- `Game.get_player` over the ordered list of hands `self.hands[0], ...,
self.hands[players-1]`. -/
def getPlayer (hands : List Hand) (hw : Nat) : Except PyError Nat :=
  getPlayerAux hw 0 hands

/-- The YAML dictionary handed to `CardDeck.__init__`
(`src/game/lib/deck.py:34`).  Each field is `Option`al: a missing key makes
the corresponding `deck_dict[...]` lookup raise `KeyError`.  `suits` is a
list of dicts mapping a color to its suit names; a dict is modelled by its
`items()` list. -/
structure DeckConfig where
  name : Option String
  size : Option Nat
  suits : Option (List (List (String × List String)))
  value_list : Option (List String)

/-- The innermost loop of `CardDeck.__create_deck` (`src/game/lib/deck.py:56`):
for one `(color, suit)` pair, one card per value, in value order. -/
def cardsForSuits (color : String) : List String → List String → List Card
  | [], _ => []
  | suit :: rest, values =>
    values.map (fun v => ⟨v, suit, some color⟩) ++ cardsForSuits color rest values

/-- The middle loop of `CardDeck.__create_deck`: one dict of
`color ↦ suit names` items, traversed in item order. -/
def cardsForDict : List (String × List String) → List String → List Card
  | [], _ => []
  | (color, suitNames) :: rest, values =>
    cardsForSuits color suitNames values ++ cardsForDict rest values

/-- `CardDeck.__create_deck`: all cards appended by the nested loops, in
append order. -/
def createDeck : List (List (String × List String)) → List String → List Card
  | [], _ => []
  | d :: rest, values => cardsForDict d values ++ createDeck rest values

/-- Number of `(color, suit)` pairs described by a `suits` configuration:
`Σ (colors × suits)` in the spec's terms. -/
def numSuits (suits : List (List (String × List String))) : Nat :=
  (suits.map (fun d => (d.map (fun p => p.2.length)).sum)).sum

/-- `CardDeck` from `src/game/lib/deck.py` after construction. -/
structure CardDeck where
  name : String
  size : Nat
  suits : List (List (String × List String))
  values : List String
  cards : List Card
deriving DecidableEq, Repr

/-- `CardDeck.__init__` on an already-loaded YAML dictionary: each required
field is read (a missing field raises `KeyError`), the declared `size` is
stored as-is, and the card list is built by `__create_deck`.  No
consistency check between `size` and the built card count exists in the
source. -/
def CardDeck.build (cfg : DeckConfig) : Except PyError CardDeck :=
  match cfg.name, cfg.size, cfg.suits, cfg.value_list with
  | some n, some sz, some su, some vl => .ok ⟨n, sz, su, vl, createDeck su vl⟩
  | _, _, _, _ => .error .keyError

/-- The thirteen rank symbols of a standard deck, as value strings. -/
def rankStrings : List String :=
  ["2", "3", "4", "5", "6", "7", "8", "9", "10", "J", "Q", "K", "A"]

/-- The thirteen cards of one suit, in rank order. -/
def suitCards (suit color : String) : List Card :=
  rankStrings.map (fun v => ⟨v, suit, some color⟩)

/-- A shuffle of the standard 52-card deck in which the card at position `i`
and the card at position `i + 26` always carry the same rank: hearts then
diamonds then spades then clubs, each in rank order. -/
def alignedDeck : List Card :=
  suitCards "Hearts" "Red" ++ suitCards "Diamonds" "Red" ++
    suitCards "Spades" "Black" ++ suitCards "Clubs" "Black"

/-- The game state dealt from `alignedDeck`: every round pairs two cards of
equal rank. -/
def alignedState : WarState := createHands alignedDeck [100] [200]

/-- A shuffle of the standard 52-card deck whose first round is won by
player 0: hearts are reversed, so player 0's first card is the Ace of
Hearts while player 1's is the 2 of Spades. -/
def winDeck : List Card :=
  (suitCards "Hearts" "Red").reverse ++ suitCards "Diamonds" "Red" ++
    suitCards "Spades" "Black" ++ suitCards "Clubs" "Black"

/-- The game state dealt from `winDeck`. -/
def winState : WarState := createHands winDeck [100] [200]

/-- "Exactly one hand's turn flag is Python `True`": the mutual-exclusion
property of §turn arbitration.  `is_turn` tests `turn is True`, so a flag of
`None` or `False` does not count. -/
def exactlyOneTurn (s : WarState) : Prop :=
  (s.h0.turn = some true ∧ s.h1.turn ≠ some true) ∨
    (s.h0.turn ≠ some true ∧ s.h1.turn = some true)

instance (s : WarState) : Decidable (exactlyOneTurn s) := by
  unfold exactlyOneTurn; infer_instance

/-! ### Helper lemmas -/

theorem pyLtChars_irrefl (l : List Char) : pyLtChars l l = false := by
  induction l with
  | nil => rfl
  | cons a as ih => simp [pyLtChars, ih]

theorem pyLtChars_asymm (a b : List Char) (h : pyLtChars a b = true) :
    pyLtChars b a = false := by
  induction a generalizing b with
  | nil =>
    cases b with
    | nil => simp [pyLtChars] at h
    | cons c cs => simp [pyLtChars]
  | cons x xs ih =>
    cases b with
    | nil => simp [pyLtChars] at h
    | cons y ys =>
      simp only [pyLtChars] at h ⊢
      rcases lt_trichotomy x y with hxy | hxy | hxy
      · simp [hxy, asymm hxy, not_lt_of_lt hxy]
      · subst hxy
        simp only [lt_irrefl, if_false] at h ⊢
        exact ih ys h
      · simp [hxy, asymm hxy, not_lt_of_lt hxy] at h

theorem pyLt_asymm (a b : String) (h : pyLt a b = true) : pyLt b a = false :=
  pyLtChars_asymm a.data b.data h

theorem pyLt_irrefl (a : String) : pyLt a a = false :=
  pyLtChars_irrefl a.data

theorem checkWinner_self (v : String) : checkWinner v v = -1 := by
  unfold checkWinner
  simp [pyLt_irrefl]

theorem checkWinner_cases (a b : String) :
    checkWinner a b = 0 ∨ checkWinner a b = 1 ∨ checkWinner a b = -1 := by
  unfold checkWinner
  rcases h1 : pyLt (translateAK b) (translateAK a) with _ | _ <;>
    rcases h2 : pyLt (translateAK a) (translateAK b) with _ | _ <;> simp [h1, h2]

/-- `distribute` written field by field. -/
theorem distribute_eq (w : Int) (c0 c1 : Card) (s : WarState) :
    distribute w c0 c1 s =
      ⟨⟨s.h0.active ++ [c0],
        if w = 0 then s.h0.dead ++ [c0, c1] else s.h0.dead,
        s.h0.rfids, s.h0.turn⟩,
       ⟨s.h1.active ++ [c1],
        if w = 1 then s.h1.dead ++ [c0, c1] else s.h1.dead,
        s.h1.rfids, s.h1.turn⟩⟩ := by
  unfold distribute
  by_cases h0 : w = 0
  · simp [h0]
  · by_cases h1 : w = 1 <;> simp [h0, h1]

/-- Inversion for a successful round: the two front cards exist and the
resulting state is `distribute` applied after the two pops and the two turn
switches. -/
theorem warRound_ok_elim {s s' : WarState} (h : warRound s = .ok s') :
    ∃ c0 r0 c1 r1, s.h0.active = c0 :: r0 ∧ s.h1.active = c1 :: r1 ∧
      s' = distribute (checkWinner c0.value c1.value) c0 c1
        ⟨⟨r0, s.h0.dead, s.h0.rfids, pythonNot (pythonNot s.h0.turn)⟩,
         ⟨r1, s.h1.dead, s.h1.rfids, pythonNot (pythonNot s.h1.turn)⟩⟩ := by
  unfold warRound at h
  rcases ha : s.h0.active with _ | ⟨c0, r0⟩ <;>
    rcases hb : s.h1.active with _ | ⟨c1, r1⟩ <;>
      rw [ha, hb] at h <;> simp only [] at h
  · cases h
  · cases h
  · cases h
  · refine ⟨c0, r0, c1, r1, rfl, rfl, ?_⟩
    cases h
    simp [switchTurns]

theorem pythonNot_of_ne_true {t : Option Bool} (h : t ≠ some true) :
    pythonNot t = some true := by
  cases t with
  | none => rfl
  | some b => cases b with
    | false => rfl
    | true => exact absurd rfl h

theorem pythonNot_pythonNot_of_true {t : Option Bool} (h : t = some true) :
    pythonNot (pythonNot t) = some true := by subst h; rfl

theorem pythonNot_pythonNot_of_ne_true {t : Option Bool} (h : t ≠ some true) :
    pythonNot (pythonNot t) = some false := by
  rw [pythonNot_of_ne_true h]; rfl

/-- King of Hearts, as built from a standard deck description. -/
def kingH : Card := ⟨"K", "Hearts", some "Red"⟩

/-- Five of Spades. -/
def fiveS : Card := ⟨"5", "Spades", some "Black"⟩

/-- A one-card-per-hand state used to instantiate round lemmas. -/
def smallState : WarState :=
  ⟨⟨[kingH], [], [1], some true⟩, ⟨[fiveS], [], [2], none⟩⟩

/-- The state `warRound` produces from `smallState`: King beats 5, so both
cards land in hand 0's `dead` pile and each card returns to the back of its
owner's `active` list. -/
def smallAfter : WarState :=
  ⟨⟨[kingH], [kingH, fiveS], [1], some true⟩, ⟨[fiveS], [], [2], some false⟩⟩

/-! ### C1 -/

/-- C1 (code bug): `check_winner` compares the value *strings* after the
A/K translation, so the rank `10` is ordered below every other numeral
rank: with player 0 holding a 10 and player 1 holding a 2, the code
declares player 1 the round winner, against the documented rank order
2 < 3 < … < 10 < J < Q < K < A.  (`K` vs `5` works as documented; the bug
is confined to `10` against the other numerals.) -/
theorem checkWinner_ten_lex_bug :
    checkWinner "10" "2" = 1 ∧ checkWinner "2" "10" = 0 ∧
      checkWinner "10" "9" = 1 ∧ checkWinner "K" "5" = 0 := by
  decide

/-! ### C6 -/

/-- C6: round resolution is commutative under swapping which rank is played
first: the tie outcome is symmetric, and a win for the first player on
`(a, b)` is exactly a win for the second player on `(b, a)`. -/
theorem checkWinner_comm (a b : String) :
    (checkWinner a b = -1 ↔ checkWinner b a = -1) ∧
      (checkWinner a b = 0 ↔ checkWinner b a = 1) := by
  unfold checkWinner
  rcases h1 : pyLt (translateAK b) (translateAK a) with _ | _
  · rcases h2 : pyLt (translateAK a) (translateAK b) with _ | _ <;> simp [h1, h2]
  · have h2 : pyLt (translateAK a) (translateAK b) = false := pyLt_asymm _ _ h1
    simp [h1, h2]

/-- C6 at a concrete pair of ranks. -/
theorem checkWinner_comm_witness :
    (checkWinner "Q" "J" = -1 ↔ checkWinner "J" "Q" = -1) ∧
      (checkWinner "Q" "J" = 0 ↔ checkWinner "J" "Q" = 1) :=
  checkWinner_comm "Q" "J"

/-! ### C5 -/

/-- C5: exactly one hand's turn flag equals Python `True` after
`create_hands` (hand 0 is set to `True`, hand 1 keeps its initial `None`),
and both `switch_turns` and a full round preserve this mutual exclusion. -/
theorem turn_exclusive_invariant :
    (∀ (cards : List Card) (r0 r1 : List Nat),
       exactlyOneTurn (createHands cards r0 r1)) ∧
    (∀ s : WarState, exactlyOneTurn s → exactlyOneTurn (switchTurns s)) ∧
    (∀ s s' : WarState, exactlyOneTurn s → warRound s = .ok s' →
       exactlyOneTurn s') := by
  refine ⟨?_, ?_, ?_⟩
  · intro cards r0 r1
    left
    refine ⟨?_, ?_⟩ <;> simp [createHands]
  · intro s hs
    rcases hs with ⟨h0, h1⟩ | ⟨h0, h1⟩
    · right
      refine ⟨?_, ?_⟩
      · show pythonNot s.h0.turn ≠ some true
        rw [h0]; simp [pythonNot]
      · show pythonNot s.h1.turn = some true
        exact pythonNot_of_ne_true h1
    · left
      refine ⟨?_, ?_⟩
      · show pythonNot s.h0.turn = some true
        exact pythonNot_of_ne_true h0
      · show pythonNot s.h1.turn ≠ some true
        rw [h1]; simp [pythonNot]
  · intro s s' hs h
    obtain ⟨c0, r0, c1, r1, ha, hb, rfl⟩ := warRound_ok_elim h
    rw [distribute_eq]
    rcases hs with ⟨h0, h1⟩ | ⟨h0, h1⟩
    · left
      refine ⟨?_, ?_⟩
      · show pythonNot (pythonNot s.h0.turn) = some true
        exact pythonNot_pythonNot_of_true h0
      · show pythonNot (pythonNot s.h1.turn) ≠ some true
        rw [pythonNot_pythonNot_of_ne_true h1]; simp
    · right
      refine ⟨?_, ?_⟩
      · show pythonNot (pythonNot s.h0.turn) ≠ some true
        rw [pythonNot_pythonNot_of_ne_true h0]; simp
      · show pythonNot (pythonNot s.h1.turn) = some true
        exact pythonNot_pythonNot_of_true h1

/-- C5 at a concrete round: `smallState` has exactly one turn flag set and
the flag stays exclusive across the round that produces `smallAfter`. -/
theorem turn_exclusive_invariant_witness : exactlyOneTurn smallAfter :=
  turn_exclusive_invariant.2.2 smallState smallAfter (by decide) rfl

/-! ### C8 -/

/-- C8: `Hand.place` removes exactly the requested card from `active` and
returns it when it is present — the remaining `active` is `active` minus one
occurrence of the card (`list.remove` drops the first match), and `dead`,
`rfids`, `turn` are untouched; when the card is absent, the `ValueError`
(the not-found failure) is raised and the hand is unchanged. -/
theorem hand_place_spec (h : Hand) (c : Card) :
    (c ∈ h.active →
      (h.place c).1 = .ok c ∧
      (h.place c).2.active = h.active.erase c ∧
      h.active.Perm (c :: (h.place c).2.active) ∧
      (h.place c).2.dead = h.dead ∧
      (h.place c).2.rfids = h.rfids ∧
      (h.place c).2.turn = h.turn) ∧
    (c ∉ h.active → h.place c = (.error .valueNotFound, h)) := by
  constructor
  · intro hc
    unfold Hand.place
    rw [if_pos hc]
    exact ⟨rfl, rfl, List.perm_cons_erase hc, rfl, rfl, rfl⟩
  · intro hc
    unfold Hand.place
    rw [if_neg hc]

/-- C8 at a concrete hand: placing the 5 of Spades out of a two-card hand. -/
theorem hand_place_spec_witness :
    let h : Hand := ⟨[kingH, fiveS], [kingH], [7], none⟩
    (h.place fiveS).1 = .ok fiveS ∧
      (h.place fiveS).2.active = h.active.erase fiveS ∧
      h.active.Perm (fiveS :: (h.place fiveS).2.active) ∧
      (h.place fiveS).2.dead = h.dead ∧
      (h.place fiveS).2.rfids = h.rfids ∧
      (h.place fiveS).2.turn = h.turn :=
  (hand_place_spec ⟨[kingH, fiveS], [kingH], [7], none⟩ fiveS).1 (by decide)

/-! ### C10 -/

theorem getPlayerAux_ok_elim (hw : Nat) :
    ∀ (hands : List Hand) (i j : Nat), getPlayerAux hw i hands = .ok j →
      ∃ k, k < hands.length ∧ j = i + k ∧
        (∀ h, hands[k]? = some h → hw ∈ h.rfids) ∧
        (∀ m, m < k → ∀ h, hands[m]? = some h → hw ∉ h.rfids) := by
  intro hands
  induction hands with
  | nil => intro i j h; cases h
  | cons hd tl ih =>
    intro i j h
    unfold getPlayerAux at h
    by_cases hm : hw ∈ hd.rfids
    · rw [if_pos hm] at h
      cases h
      refine ⟨0, by simp, by omega, ?_, ?_⟩
      · intro h hh
        simp only [List.getElem?_cons_zero, Option.some.injEq] at hh
        subst hh
        exact hm
      · intro m hm'
        exact absurd hm' (Nat.not_lt_zero m)
    · rw [if_neg hm] at h
      obtain ⟨k, hk, hj, hmem, hmin⟩ := ih (i + 1) j h
      refine ⟨k + 1, by simpa using hk, by omega, ?_, ?_⟩
      · intro h hh
        exact hmem h (by simpa using hh)
      · intro m hmk h hh
        cases m with
        | zero =>
          simp only [List.getElem?_cons_zero, Option.some.injEq] at hh
          subst hh
          exact hm
        | succ m' =>
          exact hmin m' (by omega) h (by simpa using hh)

theorem getPlayerAux_err (hw : Nat) :
    ∀ (hands : List Hand) (i : Nat),
      getPlayerAux hw i hands = .error .gameFailure ↔ ∀ h ∈ hands, hw ∉ h.rfids := by
  intro hands
  induction hands with
  | nil => intro i; simp [getPlayerAux]
  | cons hd tl ih =>
    intro i
    unfold getPlayerAux
    by_cases hm : hw ∈ hd.rfids
    · rw [if_pos hm]
      simp only [List.mem_cons]
      constructor
      · intro h; cases h
      · intro h
        exact absurd hm (h hd (Or.inl rfl))
    · rw [if_neg hm]
      rw [ih (i + 1)]
      constructor
      · intro h x hx
        rcases List.mem_cons.1 hx with rfl | hx'
        · exact hm
        · exact h x hx'
      · intro h x hx
        exact h x (List.mem_cons_of_mem _ hx)

/-- C10: `get_player` scans the hands in increasing player order, so a
successful lookup returns the smallest player index whose `rfids` list
contains the identifier (in particular an identifier bound to both hands of
a two-player game resolves to player 0), and the `GameFailure` ("player not
found") is raised exactly when no hand's `rfids` list contains it. -/
theorem getPlayer_least_index (hands : List Hand) (hw j : Nat) :
    (getPlayer hands hw = .ok j →
      j < hands.length ∧
      (∀ h, hands[j]? = some h → hw ∈ h.rfids) ∧
      (∀ m, m < j → ∀ h, hands[m]? = some h → hw ∉ h.rfids)) ∧
    (getPlayer hands hw = .error .gameFailure ↔ ∀ h ∈ hands, hw ∉ h.rfids) ∧
    (∀ hA hB : Hand, hw ∈ hA.rfids → getPlayer [hA, hB] hw = .ok 0) := by
  refine ⟨?_, getPlayerAux_err hw hands 0, ?_⟩
  · intro h
    obtain ⟨k, hk, hj, hmem, hmin⟩ := getPlayerAux_ok_elim hw hands 0 j h
    have : j = k := by omega
    subst this
    exact ⟨hk, hmem, hmin⟩
  · intro hA hB hm
    unfold getPlayer getPlayerAux
    rw [if_pos hm]

/-- C10 at a concrete identifier bound to both hands: it resolves to
player 0. -/
theorem getPlayer_least_index_witness :
    getPlayer [⟨[], [], [7], some true⟩, ⟨[], [], [7, 9], none⟩] 7 = .ok 0 :=
  (getPlayer_least_index [⟨[], [], [7], some true⟩, ⟨[], [], [7, 9], none⟩] 7 0).2.2
    ⟨[], [], [7], some true⟩ ⟨[], [], [7, 9], none⟩ (by decide)

/-! ### C2 / C3 / C9: what a round does to the two hands -/

theorem createHands_sums (cards : List Card) (r0 r1 : List Nat)
    (h : 2 ∣ cards.length) :
    (createHands cards r0 r1).h0.active.length +
        (createHands cards r0 r1).h0.dead.length = cards.length / 2 ∧
      (createHands cards r0 r1).h1.active.length +
        (createHands cards r0 r1).h1.dead.length = cards.length / 2 := by
  obtain ⟨k, hk⟩ := h
  simp [createHands, hk]
  omega

theorem warRound_sums (s s' : WarState) (c0 : Card) (r0 : List Card)
    (c1 : Card) (r1 : List Card)
    (ha : s.h0.active = c0 :: r0) (hb : s.h1.active = c1 :: r1)
    (h : warRound s = .ok s') :
    s'.h0.active.length + s'.h0.dead.length
        = s.h0.active.length + s.h0.dead.length +
            (if checkWinner c0.value c1.value = 0 then 2 else 0) ∧
      s'.h1.active.length + s'.h1.dead.length
        = s.h1.active.length + s.h1.dead.length +
            (if checkWinner c0.value c1.value = 1 then 2 else 0) := by
  obtain ⟨c0', r0', c1', r1', ha', hb', rfl⟩ := warRound_ok_elim h
  rw [ha] at ha'
  rw [hb] at hb'
  injection ha' with he0 ht0
  injection hb' with he1 ht1
  subst he0; subst ht0; subst he1; subst ht1
  rw [distribute_eq]
  constructor
  · by_cases hw : checkWinner c0.value c1.value = 0 <;> simp [ha, hw]
    all_goals omega
  · by_cases hw : checkWinner c0.value c1.value = 1 <;> simp [hb, hw]
    all_goals omega

/-- C2 counterexample: `winState` is a dealt 52-card game (each sum
`|active| + |dead|` is 26), yet after its first round — won by player 0's
Ace of Hearts against the 2 of Spades — hand 0's sum is 28: `distribute`
duplicates both played cards into the winner's `dead` pile while also
returning them to the active queues, so the sum is not constant. -/
theorem roundSum_winState_cex :
    winState.h0.active.length + winState.h0.dead.length = 26 ∧
      (warRound winState).map (fun s => s.h0.active.length + s.h0.dead.length)
        = .ok 28 :=
  ⟨rfl, rfl⟩

/-- C2 amended: at the deal each hand's `|active| + |dead|` equals the deck
size divided by the player count, and a round preserves the sum exactly for
the hands that do not win it: the round's winner gains 2 (the two played
cards are duplicated into its `dead` pile), a tie preserves both sums. -/
theorem sum_active_dead_amended :
    (∀ (cards : List Card) (r0 r1 : List Nat), 2 ∣ cards.length →
      (createHands cards r0 r1).h0.active.length +
          (createHands cards r0 r1).h0.dead.length = cards.length / 2 ∧
        (createHands cards r0 r1).h1.active.length +
          (createHands cards r0 r1).h1.dead.length = cards.length / 2) ∧
    (∀ (s s' : WarState) (c0 : Card) (r0 : List Card) (c1 : Card)
        (r1 : List Card),
      s.h0.active = c0 :: r0 → s.h1.active = c1 :: r1 → warRound s = .ok s' →
      s'.h0.active.length + s'.h0.dead.length
          = s.h0.active.length + s.h0.dead.length +
              (if checkWinner c0.value c1.value = 0 then 2 else 0) ∧
        s'.h1.active.length + s'.h1.dead.length
          = s.h1.active.length + s.h1.dead.length +
              (if checkWinner c0.value c1.value = 1 then 2 else 0)) :=
  ⟨createHands_sums, warRound_sums⟩

/-- C2's amended round rule at the concrete round `smallState → smallAfter`
(King beats 5, so hand 0's sum grows by 2 and hand 1's is preserved). -/
theorem sum_active_dead_amended_witness :
    smallAfter.h0.active.length + smallAfter.h0.dead.length
        = smallState.h0.active.length + smallState.h0.dead.length +
            (if checkWinner kingH.value fiveS.value = 0 then 2 else 0) ∧
      smallAfter.h1.active.length + smallAfter.h1.dead.length
        = smallState.h1.active.length + smallState.h1.dead.length +
            (if checkWinner kingH.value fiveS.value = 1 then 2 else 0) :=
  sum_active_dead_amended.2 smallState smallAfter kingH [] fiveS [] rfl rfl rfl

/-- C3 counterexample: in `winState` player 0 plays the Ace of Hearts, but
after the round the front of hand 0's active queue is the King of Hearts,
not the played Ace — `distribute` appends the played card to the *back* of
its owner's queue (`list.append`), not the front. -/
theorem distribute_front_cex :
    winState.h0.active.head? = some ⟨"A", "Hearts", some "Red"⟩ ∧
      (warRound winState).map (fun s => s.h0.active.head?)
        = .ok (some ⟨"K", "Hearts", some "Red"⟩) ∧
      (⟨"K", "Hearts", some "Red"⟩ : Card) ≠ ⟨"A", "Hearts", some "Red"⟩ :=
  ⟨rfl, rfl, by decide⟩

/-- C3 amended: on a clear winner both played cards are appended to the
winner's `dead` (won) pile and the loser's pile is untouched; win or tie,
each played card is appended to the *back* of its original owner's active
queue. -/
theorem distribute_back_amended (s s' : WarState) (c0 : Card)
    (r0 : List Card) (c1 : Card) (r1 : List Card)
    (ha : s.h0.active = c0 :: r0) (hb : s.h1.active = c1 :: r1)
    (h : warRound s = .ok s') :
    s'.h0.active = r0 ++ [c0] ∧ s'.h1.active = r1 ++ [c1] ∧
      (checkWinner c0.value c1.value = 0 →
        s'.h0.dead = s.h0.dead ++ [c0, c1] ∧ s'.h1.dead = s.h1.dead) ∧
      (checkWinner c0.value c1.value = 1 →
        s'.h1.dead = s.h1.dead ++ [c0, c1] ∧ s'.h0.dead = s.h0.dead) ∧
      (checkWinner c0.value c1.value = -1 →
        s'.h0.dead = s.h0.dead ∧ s'.h1.dead = s.h1.dead) := by
  obtain ⟨c0', r0', c1', r1', ha', hb', rfl⟩ := warRound_ok_elim h
  rw [ha] at ha'
  rw [hb] at hb'
  injection ha' with he0 ht0
  injection hb' with he1 ht1
  subst he0; subst ht0; subst he1; subst ht1
  rw [distribute_eq]
  refine ⟨rfl, rfl, ?_, ?_, ?_⟩ <;> intro hw <;> simp [hw]

/-- C3's amended rule at the concrete round `smallState → smallAfter`. -/
theorem distribute_back_amended_witness :
    smallAfter.h0.active = [] ++ [kingH] ∧ smallAfter.h1.active = [] ++ [fiveS] ∧
      (checkWinner kingH.value fiveS.value = 0 →
        smallAfter.h0.dead = smallState.h0.dead ++ [kingH, fiveS] ∧
          smallAfter.h1.dead = smallState.h1.dead) ∧
      (checkWinner kingH.value fiveS.value = 1 →
        smallAfter.h1.dead = smallState.h1.dead ++ [kingH, fiveS] ∧
          smallAfter.h0.dead = smallState.h0.dead) ∧
      (checkWinner kingH.value fiveS.value = -1 →
        smallAfter.h0.dead = smallState.h0.dead ∧
          smallAfter.h1.dead = smallState.h1.dead) :=
  distribute_back_amended smallState smallAfter kingH [] fiveS [] rfl rfl rfl

theorem warRound_active_lengths (s s' : WarState) (h : warRound s = .ok s') :
    s'.h0.active.length = s.h0.active.length ∧
      s'.h1.active.length = s.h1.active.length := by
  obtain ⟨c0, r0, c1, r1, ha, hb, rfl⟩ := warRound_ok_elim h
  rw [distribute_eq]
  constructor <;> simp [ha, hb]

theorem warSteps_active_lengths :
    ∀ (n : Nat) (s s' : WarState), warSteps n s = .ok s' →
      s'.h0.active.length = s.h0.active.length ∧
        s'.h1.active.length = s.h1.active.length := by
  intro n
  induction n with
  | zero =>
    intro s s' h
    cases h
    exact ⟨rfl, rfl⟩
  | succ n ih =>
    intro s s' h
    unfold warSteps at h
    cases hr : warRound s with
    | error e => rw [hr] at h; cases h
    | ok s1 =>
      rw [hr] at h
      have h1 := warRound_active_lengths s s1 hr
      have h2 := ih s1 s' h
      exact ⟨h2.1.trans h1.1, h2.2.trans h1.2⟩

/-- C9: a full round leaves both active queue lengths unchanged (one card
is popped from the front, one appended to the back), hence over any number
of rounds the active queues keep their dealt lengths and can never shrink
or empty. -/
theorem round_active_length_invariant :
    (∀ s s' : WarState, warRound s = .ok s' →
      s'.h0.active.length = s.h0.active.length ∧
        s'.h1.active.length = s.h1.active.length) ∧
    (∀ (n : Nat) (s s' : WarState), warSteps n s = .ok s' →
      s'.h0.active.length = s.h0.active.length ∧
        s'.h1.active.length = s.h1.active.length) ∧
    (∀ (n : Nat) (s s' : WarState), warSteps n s = .ok s' →
      (s.h0.active ≠ [] → s'.h0.active ≠ []) ∧
        (s.h1.active ≠ [] → s'.h1.active ≠ [])) := by
  refine ⟨warRound_active_lengths, warSteps_active_lengths, ?_⟩
  intro n s s' h
  obtain ⟨h0, h1⟩ := warSteps_active_lengths n s s' h
  constructor <;> intro hne
  · rw [← List.length_pos] at hne ⊢
    omega
  · rw [← List.length_pos] at hne ⊢
    omega

/-- C9 at the concrete round `smallState → smallAfter`. -/
theorem round_active_length_invariant_witness :
    smallAfter.h0.active.length = smallState.h0.active.length ∧
      smallAfter.h1.active.length = smallState.h1.active.length :=
  round_active_length_invariant.1 smallState smallAfter rfl

/-! ### C4: termination of the play loop -/

/-- Direct evaluation of a round when both front cards are exhibited. -/
theorem warRound_cons {s : WarState} {c0 c1 : Card} {r0 r1 : List Card}
    (ha : s.h0.active = c0 :: r0) (hb : s.h1.active = c1 :: r1) :
    warRound s = .ok (distribute (checkWinner c0.value c1.value) c0 c1
      ⟨⟨r0, s.h0.dead, s.h0.rfids, pythonNot (pythonNot s.h0.turn)⟩,
       ⟨r1, s.h1.dead, s.h1.rfids, pythonNot (pythonNot s.h1.turn)⟩⟩) := by
  unfold warRound
  rw [ha, hb]
  simp [switchTurns]

/-- States whose two active queues are positionwise equal in rank and whose
`dead` piles are empty: every round from such a state is a tie and returns
to such a state. -/
def tieAligned (s : WarState) : Prop :=
  s.h0.dead = [] ∧ s.h1.dead = [] ∧ s.h0.active ≠ [] ∧
    s.h0.active.map Card.value = s.h1.active.map Card.value

instance (s : WarState) : Decidable (tieAligned s) := by
  unfold tieAligned; infer_instance

theorem tieAligned_round {s : WarState} (ht : tieAligned s) :
    ∃ s', warRound s = .ok s' ∧ tieAligned s' := by
  obtain ⟨hd0, hd1, hne, hmap⟩ := ht
  rcases ha : s.h0.active with _ | ⟨c0, r0⟩
  · exact absurd ha hne
  rcases hb : s.h1.active with _ | ⟨c1, r1⟩
  · rw [ha, hb] at hmap; simp at hmap
  rw [ha, hb] at hmap
  simp only [List.map_cons, List.cons.injEq] at hmap
  obtain ⟨hv, hmap'⟩ := hmap
  have hw : checkWinner c0.value c1.value = -1 := by
    rw [hv]; exact checkWinner_self _
  refine ⟨_, warRound_cons ha hb, ?_, ?_, ?_, ?_⟩
  · rw [distribute_eq]
    simp [hw, hd0]
  · rw [distribute_eq]
    simp [hw, hd1]
  · rw [distribute_eq]
    simp
  · rw [distribute_eq]
    simp [hmap', hv]

theorem tieAligned_steps : ∀ (n : Nat) {s : WarState}, tieAligned s →
    ∃ s', warSteps n s = .ok s' ∧ tieAligned s' := by
  intro n
  induction n with
  | zero => intro s ht; exact ⟨s, rfl, ht⟩
  | succ n ih =>
    intro s ht
    obtain ⟨s1, hr, ht1⟩ := tieAligned_round ht
    obtain ⟨s', hs, ht'⟩ := ih ht1
    refine ⟨s', ?_, ht'⟩
    unfold warSteps
    rw [hr]
    exact hs

/-- C4 counterexample: the play loop does *not* terminate for every shuffle.
`alignedDeck` is a permutation of the standard 52-card deck whose two dealt
halves agree rank-by-rank, so every round is a tie, no card ever reaches a
`dead` pile, and the loop guard stays true forever. -/
theorem warTerminates_aligned_cex : ¬ WarTerminates alignedState := by
  intro hterm
  obtain ⟨n, s', hok, hguard⟩ := hterm
  obtain ⟨s'', hok', ht⟩ :=
    tieAligned_steps n (show tieAligned alignedState by decide)
  rw [hok] at hok'
  cases hok'
  have hg : loopGuard s' = true := by
    simp [loopGuard, ht.1, ht.2.1]
  rw [hg] at hguard
  cases hguard

theorem warRound_dead_lengths (s s' : WarState) (h : warRound s = .ok s') :
    (s'.h0.dead.length = s.h0.dead.length + 2 ∧
        s'.h1.dead.length = s.h1.dead.length) ∨
      (s'.h1.dead.length = s.h1.dead.length + 2 ∧
        s'.h0.dead.length = s.h0.dead.length) ∨
      (s'.h0.dead.length = s.h0.dead.length ∧
        s'.h1.dead.length = s.h1.dead.length) := by
  obtain ⟨c0, r0, c1, r1, ha, hb, rfl⟩ := warRound_ok_elim h
  rw [distribute_eq]
  rcases checkWinner_cases c0.value c1.value with hw | hw | hw
  · left; simp [hw]
  · right; left; simp [hw]
  · right; right; simp [hw]

/-- C4 amended: the loop need not terminate (see the aligned-deck
counterexample); what does hold is that `dead` pile sizes stay even across
rounds, and any round that turns the loop guard from true to false leaves
exactly one hand with a `dead` pile of exactly 52 cards, the hand the
announcement step then reports as the winner. -/
theorem war_exit_amended :
    (∀ s s' : WarState, warRound s = .ok s' →
      Even s.h0.dead.length → Even s.h1.dead.length →
      Even s'.h0.dead.length ∧ Even s'.h1.dead.length) ∧
    (∀ s s' : WarState, warRound s = .ok s' →
      Even s.h0.dead.length → Even s.h1.dead.length →
      loopGuard s = true → loopGuard s' = false →
      (s'.h0.dead.length = 52 ∧ s'.h1.dead.length < 52 ∧
          announceWinner s' = some 0) ∨
        (s'.h1.dead.length = 52 ∧ s'.h0.dead.length < 52 ∧
          announceWinner s' = some 1)) := by
  constructor
  · intro s s' h he0 he1
    rw [Nat.even_iff] at he0 he1
    rcases warRound_dead_lengths s s' h with ⟨h0, h1⟩ | ⟨h1, h0⟩ | ⟨h0, h1⟩ <;>
      constructor <;> rw [Nat.even_iff] <;> omega
  · intro s s' h he0 he1 hg hg'
    rw [Nat.even_iff] at he0 he1
    simp only [loopGuard, Bool.and_eq_true, decide_eq_true_eq] at hg
    have hg'' : ¬ (s'.h0.dead.length < 52 ∧ s'.h1.dead.length < 52) := by
      intro hc
      simp [loopGuard, hc.1, hc.2] at hg'
    rcases warRound_dead_lengths s s' h with ⟨h0, h1⟩ | ⟨h1, h0⟩ | ⟨h0, h1⟩
    · left
      have hd0 : s'.h0.dead.length = 52 := by omega
      refine ⟨hd0, by omega, ?_⟩
      simp [announceWinner, hd0]
    · right
      have hd1 : s'.h1.dead.length = 52 := by omega
      have hd0 : s'.h0.dead.length < 52 := by omega
      refine ⟨hd1, hd0, ?_⟩
      simp [announceWinner, hd1, Nat.not_le.2 hd0]
    · exact absurd ⟨by omega, by omega⟩ hg''

/-- Ace of Hearts. -/
def aceH : Card := ⟨"A", "Hearts", some "Red"⟩

/-- Two of Spades. -/
def twoS : Card := ⟨"2", "Spades", some "Black"⟩

/-- A late-game state: hand 0 has already won 25 rounds (50 cards in its
`dead` pile) and is about to win the 26th. -/
def endState : WarState :=
  ⟨⟨[aceH], alignedDeck.take 50, [1], some true⟩,
   ⟨[twoS], [], [2], some false⟩⟩

/-- The state after the final round of `endState`: hand 0's `dead` pile
reaches exactly 52. -/
def endAfter : WarState :=
  ⟨⟨[aceH], alignedDeck.take 50 ++ [aceH, twoS], [1], some true⟩,
   ⟨[twoS], [], [2], some false⟩⟩

/-- C4's amended exit rule at the concrete final round
`endState → endAfter`. -/
theorem war_exit_amended_witness :
    (endAfter.h0.dead.length = 52 ∧ endAfter.h1.dead.length < 52 ∧
        announceWinner endAfter = some 0) ∨
      (endAfter.h1.dead.length = 52 ∧ endAfter.h0.dead.length < 52 ∧
        announceWinner endAfter = some 1) :=
  war_exit_amended.2 endState endAfter rfl ⟨25, rfl⟩ ⟨0, rfl⟩ rfl rfl

/-! ### C7: the deck factory -/

theorem cardsForSuits_length (color : String) :
    ∀ (suits values : List String),
      (cardsForSuits color suits values).length = suits.length * values.length := by
  intro suits values
  induction suits with
  | nil => simp [cardsForSuits]
  | cons s rest ih =>
    simp [cardsForSuits, ih, Nat.succ_mul]
    omega

theorem cardsForDict_length :
    ∀ (d : List (String × List String)) (values : List String),
      (cardsForDict d values).length
        = (d.map (fun p => p.2.length)).sum * values.length := by
  intro d values
  induction d with
  | nil => simp [cardsForDict]
  | cons p rest ih =>
    obtain ⟨color, sns⟩ := p
    simp [cardsForDict, cardsForSuits_length, ih, Nat.add_mul]

theorem createDeck_length :
    ∀ (suits : List (List (String × List String))) (values : List String),
      (createDeck suits values).length = numSuits suits * values.length := by
  intro suits values
  induction suits with
  | nil => simp [createDeck, numSuits]
  | cons d rest ih =>
    simp [createDeck, numSuits, cardsForDict_length, Nat.add_mul]
    simpa [numSuits] using ih

/-- A deck description whose declared size (5) disagrees with its
composition: one color, one suit, two ranks, i.e. 2 cards. -/
def badConfig : DeckConfig :=
  ⟨some "tiny", some 5, some [[("Red", ["Hearts"])]], some ["A", "K"]⟩

/-- C7 counterexample: the factory accepts a description whose declared
size (5) is inconsistent with its suit/rank composition (2 cards) — it
raises no error and silently builds a deck whose card count differs from
the declared size field. -/
theorem cardDeck_size_unchecked_cex :
    (CardDeck.build badConfig).map (fun dk => (dk.size, dk.cards.length))
        = .ok (5, 2) ∧
      (5 : Nat) ≠ 2 :=
  ⟨rfl, by decide⟩

/-- C7 amended: the factory builds exactly `Σ(colors × suits) × |ranks|`
cards in declaration order, stores the declared `size` field without any
consistency check against that count, and fails (with the key-lookup error,
Python `KeyError`) exactly when a required field is missing. -/
theorem cardDeck_build_amended :
    (∀ (cfg : DeckConfig) (dk : CardDeck), CardDeck.build cfg = .ok dk →
      dk.cards.length = numSuits dk.suits * dk.values.length ∧
        cfg.size = some dk.size ∧ cfg.suits = some dk.suits ∧
        cfg.value_list = some dk.values) ∧
    (∀ cfg : DeckConfig,
      CardDeck.build cfg = .error .keyError ↔
        (cfg.name = none ∨ cfg.size = none ∨ cfg.suits = none ∨
          cfg.value_list = none)) := by
  constructor
  · intro cfg dk h
    obtain ⟨name, size, suits, vl⟩ := cfg
    cases name <;> cases size <;> cases suits <;> cases vl <;> cases h
    exact ⟨createDeck_length _ _, rfl, rfl, rfl⟩
  · intro cfg
    obtain ⟨name, size, suits, vl⟩ := cfg
    cases name <;> cases size <;> cases suits <;> cases vl <;>
      simp [CardDeck.build]

/-- C7's amended contract at the concrete description `badConfig`. -/
theorem cardDeck_build_amended_witness :
    let dk : CardDeck :=
      ⟨"tiny", 5, [[("Red", ["Hearts"])]], ["A", "K"],
        [⟨"A", "Hearts", some "Red"⟩, ⟨"K", "Hearts", some "Red"⟩]⟩
    dk.cards.length = numSuits dk.suits * dk.values.length ∧
      badConfig.size = some dk.size ∧ badConfig.suits = some dk.suits ∧
      badConfig.value_list = some dk.values :=
  cardDeck_build_amended.1 badConfig
    ⟨"tiny", 5, [[("Red", ["Hearts"])]], ["A", "K"],
      [⟨"A", "Hearts", some "Red"⟩, ⟨"K", "Hearts", some "Red"⟩]⟩ rfl

end WarGame
